import Mathlib

/-!
Shallow embedding of `src/auto_updater.py` (class `HeliumUpdater`) from the
helium-windows repository, together with proofs about its behaviour.

Python strings are modelled by Lean `String`, with the string primitives the
code uses (`lower`, `split`, `lstrip`, `endswith`, substring containment,
`int(...)` parsing) re-implemented over `List Char` so that they compute by
kernel reduction.  Fallible operations (network transfer, file unlink,
process spawn) are modelled by passing the environment's behaviour as an
explicit argument and returning `Except`/`Option` values.
-/

/-! ## String primitives modelling the Python built-ins used by the code -/

/-- Python `str.lower` restricted to ASCII, which is all the code compares. -/
def lowerStr (s : String) : String := ⟨s.data.map Char.toLower⟩

/-- Split a character list at every occurrence of `c`, Python `str.split(c)`:
the empty list yields one empty field. -/
def splitCh (c : Char) : List Char → List (List Char)
  | [] => [[]]
  | a :: rest =>
    let r := splitCh c rest
    if a == c then [] :: r
    else
      match r with
      | [] => [[a]]
      | g :: gs => (a :: g) :: gs

/-- Whether `pre` begins `l` (componentwise equality). -/
def listStartsWith (pre : List Char) (l : List Char) : Bool :=
  match pre, l with
  | [], _ => true
  | _ :: _, [] => false
  | a :: as, b :: bs => a == b && listStartsWith as bs

/-- Python's `needle in hay` substring test over character lists. -/
def listHasSub (needle : List Char) : List Char → Bool
  | [] => needle.isEmpty
  | c :: rest => listStartsWith needle (c :: rest) || listHasSub needle rest

/-- Python `needle in hay` on strings. -/
def strHasSub (hay needle : String) : Bool := listHasSub needle.data hay.data

/-- Python `hay.endswith(suf)`. -/
def strEnds (hay suf : String) : Bool :=
  listStartsWith suf.data.reverse hay.data.reverse

/-- Python `str.lstrip('v')`: remove every leading `'v'` character. -/
def pyLstripV (s : String) : String := ⟨s.data.dropWhile (· == 'v')⟩

/-- Characters removed by Python `str.strip()` (ASCII whitespace). -/
def isPySpace (c : Char) : Bool :=
  c == ' ' || c == '\t' || c == '\n' || c == '\x0d' || c == '\x0b' || c == '\x0c'

/-- Python `str.strip()` on a character list. -/
def pyStrip (cs : List Char) : List Char :=
  ((cs.dropWhile isPySpace).reverse.dropWhile isPySpace).reverse

/-- Numeric value of an ASCII digit character. -/
def digitVal (c : Char) : Nat := c.toNat - 48

/-- Digit-run parser for Python `int`: digits with single underscores
allowed strictly between digits, accumulating into `acc`. -/
def parseDigitsGo (acc : Nat) : List Char → Option Nat
  | [] => some acc
  | c :: rest =>
    if c.isDigit then parseDigitsGo (acc * 10 + digitVal c) rest
    else if c == '_' then
      match rest with
      | [] => none
      | d :: rest' => if d.isDigit then parseDigitsGo (acc * 10 + digitVal d) rest' else none
    else none

/-- Parse a nonempty digit run (first character must be a digit). -/
def parseDigitsU (cs : List Char) : Option Nat :=
  match cs with
  | [] => none
  | c :: _ => if c.isDigit then parseDigitsGo 0 cs else none

/-- Python `int(s)` for `str` arguments, ASCII model: optional surrounding
whitespace, optional sign, then digits with underscores between digits.
Returns `none` exactly when CPython raises `ValueError`. -/
def pyIntChars (cs0 : List Char) : Option Int :=
  match pyStrip cs0 with
  | [] => none
  | c :: rest =>
    if c == '+' then (parseDigitsU rest).map Int.ofNat
    else if c == '-' then (parseDigitsU rest).map (fun n => -(n : Int))
    else (parseDigitsU (c :: rest)).map Int.ofNat

/-- Python comparison `a > b` on integer lists (lexicographic; a strict
super-list is greater than its own beginning). -/
def pyListGT : List Int → List Int → Bool
  | [], _ => false
  | _ :: _, [] => true
  | a :: as, b :: bs => if a > b then true else if b > a then false else pyListGT as bs

/-! ## `HeliumUpdater._is_newer_version` -/

/-- Python `v.split('-')[0]`: the part of `v` before the first `'-'`. -/
def dashStrip (v : String) : List Char := (splitCh '-' v.data).headD []

/-- The `'.'`-separated segments of `v` after the pre-release strip. -/
def segsOf (v : String) : List (List Char) := splitCh '.' (dashStrip v)

/-- The list comprehension `[int(x) for x in segments]`: evaluate left to
right; the first `ValueError` aborts the whole list. -/
def intListOf : List (List Char) → Option (List Int)
  | [] => some []
  | s :: rest =>
    match pyIntChars s, intListOf rest with
    | some n, some ns => some (n :: ns)
    | _, _ => none

/-- The inner `parse_version` helper of `_is_newer_version`:
`v.split('-')[0]`, then `[int(x) for x in v.split('.')]`; `none` models the
`ValueError` propagating out of the list comprehension. -/
def parse_version (v : String) : Option (List Int) :=
  intListOf (segsOf v)

/-- Right-pad an integer list with zeros to length `n`. -/
def padTo (l : List Int) (n : Nat) : List Int := l ++ List.replicate (n - l.length) 0

/-- `HeliumUpdater._is_newer_version`: parse both versions, pad the shorter
with zeros, compare with Python list `>`; any `ValueError` is caught and
yields `false`. -/
def is_newer_version (version1 version2 : String) : Bool :=
  match parse_version version1, parse_version version2 with
  | some v1_parts, some v2_parts =>
    let max_len := max v1_parts.length v2_parts.length
    pyListGT (padTo v1_parts max_len) (padTo v2_parts max_len)
  | _, _ => false

/-! ## Specification-side definitions for the version order -/

/-- A well-formed dot-integer version string: after the pre-release strip,
every `'.'`-separated segment is a nonempty run of ASCII digits. -/
def wellFormedVersion (v : String) : Bool :=
  (segsOf v).all fun s => !s.isEmpty && s.all (·.isDigit)

/-- Value of a digit run continuing from `acc`. -/
def digitsToNatFrom (acc : Nat) (cs : List Char) : Nat :=
  cs.foldl (fun a c => a * 10 + digitVal c) acc

/-- The integer sequence a well-formed version string denotes. -/
def specIntSeq (v : String) : List Int :=
  (segsOf v).map fun s => (digitsToNatFrom 0 s : Int)

/-- Common padded length of the two integer sequences. -/
def maxLen (a b : String) : Nat := max (specIntSeq a).length (specIntSeq b).length

/-! ## `HeliumUpdater._get_architecture` -/

/-- `HeliumUpdater._get_architecture`, as a function of the string reported
by `platform.machine()`. -/
def get_architecture (machine : String) : String :=
  let arch := lowerStr machine
  if arch == "amd64" || arch == "x86_64" then "x64"
  else if arch == "arm64" || arch == "aarch64" then "arm64"
  else "x64"

/-! ## Data model: release records and update-check results -/

/-- A release asset as the code reads it: a JSON object whose `name` and
`browser_download_url` fields may be absent. -/
structure Asset where
  name : Option String
  browser_download_url : Option String
  deriving DecidableEq, Repr

/-- The latest-release JSON record, with every field the code accesses
optional (absent keys) and `assets` defaulting to the empty list. -/
structure Release where
  tag_name : Option String
  body : Option String
  html_url : Option String
  published_at : Option String
  assets : List Asset
  deriving DecidableEq, Repr

/-- The dictionary `check_for_updates` returns on success. -/
structure UpdateInfo where
  version : String
  release_notes : String
  release_url : Option String
  published_at : Option String
  installer : Option Asset
  zip_package : Option Asset
  architecture : String
  deriving DecidableEq, Repr

/-! ## `HeliumUpdater.check_for_updates` -/

/-- The architecture-marker test applied to a lower-cased asset name:
`f'_{arch}-' in name or f'-{arch}-' in name or f'_{arch}_' in name`. -/
def assetMatchArch (arch name : String) : Bool :=
  strHasSub name ("_" ++ arch ++ "-") || strHasSub name ("-" ++ arch ++ "-")
    || strHasSub name ("_" ++ arch ++ "_")

/-- One iteration of the asset-scanning `for` loop: classify `asset` into
the installer/zip accumulator pair. -/
def stepAsset (arch : String) (acc : Option Asset × Option Asset) (asset : Asset) :
    Option Asset × Option Asset :=
  let nm := lowerStr (asset.name.getD "")
  if assetMatchArch arch nm then
    if strEnds nm "-installer.exe" then (some asset, acc.2)
    else if strEnds nm "-windows.zip" then (acc.1, some asset)
    else acc
  else acc

/-- The asset-scanning loop of `check_for_updates` (last match wins). -/
def scanGo (arch : String) (acc : Option Asset × Option Asset) :
    List Asset → Option Asset × Option Asset
  | [] => acc
  | a :: rest => scanGo arch (stepAsset arch acc a) rest

/-- Whether the scan classifies `a` as an installer asset: marker match and
the `-installer.exe` suffix on the lower-cased name. -/
def isInstallerMatch (arch : String) (a : Asset) : Bool :=
  assetMatchArch arch (lowerStr (a.name.getD "")) &&
    strEnds (lowerStr (a.name.getD "")) "-installer.exe"

/-- Whether the scan classifies `a` as a zip asset: marker match, not an
installer (the `elif`), and the `-windows.zip` suffix. -/
def isZipMatch (arch : String) (a : Asset) : Bool :=
  assetMatchArch arch (lowerStr (a.name.getD "")) &&
    !(strEnds (lowerStr (a.name.getD "")) "-installer.exe") &&
    strEnds (lowerStr (a.name.getD "")) "-windows.zip"

/-- `HeliumUpdater.check_for_updates`, as a function of the current version,
the `platform.machine()` string, and the latest-release API response
(`none` models a failed `_make_request`). -/
def check_for_updates (current_version machine : String) (latest_release : Option Release) :
    Option UpdateInfo :=
  match latest_release with
  | none => none
  | some rel =>
    let latest_version := pyLstripV (rel.tag_name.getD "")
    if latest_version == "" then none
    else if is_newer_version latest_version current_version then
      let arch := get_architecture machine
      let scanned := scanGo arch (none, none) rel.assets
      if scanned.1.isSome || scanned.2.isSome then
        some { version := latest_version
               release_notes := rel.body.getD ""
               release_url := rel.html_url
               published_at := rel.published_at
               installer := scanned.1
               zip_package := scanned.2
               architecture := arch }
      else none
    else none

/-! ## `HeliumUpdater.download_update`

The network transfer is modelled by an explicit `NetEvent` describing what
the environment does, the destination file by an `Option (List Nat)` (the
sizes of the chunks it holds, `none` when absent), and an uncaught Python
exception by `Except.error`. -/

/-- Python-level exception identities, only used to tag failures. -/
inductive PyErr where
  | fileNotFound
  | osError
  | typeErr
  deriving DecidableEq, Repr

deriving instance DecidableEq for Except

/-- What the environment does for one download attempt: either `urlopen`
raises, or a transfer delivers `chunks` (successive nonzero `read` results;
a `0` chunk is CPython's empty read, i.e. EOF) under a declared
`Content-Length` of `contentLength`, and `interrupted` says whether an
exception is raised after those chunks instead of a clean EOF. -/
inductive NetEvent where
  | failConnect
  | transfer (contentLength : Nat) (chunks : List Nat) (interrupted : Bool)
  deriving DecidableEq, Repr

/-- Observable outcome of `download_update`: returned value, final content
of the destination file, and the list of progress-callback invocations. -/
structure DownloadOut where
  result : Option String
  file : Option (List Nat)
  calls : List (Nat × Nat)
  deriving DecidableEq, Repr

/-- Asset chosen by `update_info.get('installer') or update_info.get('zip_package')`. -/
def selectedAsset (info : UpdateInfo) : Option Asset :=
  match info.installer with
  | some a => some a
  | none => info.zip_package

/-- The fixed temporary directory, standing in for `tempfile.gettempdir()`. -/
def tempDir : String := "/tmp"

/-- `str(Path(temp_dir) / filename)`. -/
def pathFor (filename : String) : String := tempDir ++ "/" ++ filename

/-- The chunked copy loop: write each chunk, add its size to `downloaded`,
and fire the progress callback when one is supplied and `total > 0`;
break at the first empty read. Returns (file content, downloaded, calls,
whether the loop exited through the empty-read `break`). -/
def dlLoop (cb : Bool) (total : Nat) :
    List Nat → List Nat → Nat → List (Nat × Nat) → List Nat × Nat × List (Nat × Nat) × Bool
  | [], file, downloaded, calls => (file, downloaded, calls, false)
  | ch :: rest, file, downloaded, calls =>
    if ch = 0 then (file, downloaded, calls, true)
    else
      let downloaded' := downloaded + ch
      let calls' := if cb && total > 0 then calls ++ [(downloaded', total)] else calls
      dlLoop cb total rest (file ++ [ch]) downloaded' calls'

/-- `HeliumUpdater.download_update`: pick the installer else the zip asset,
require a `browser_download_url`, and stream to the temp path; on any
exception inside the `try` the partial file is unlinked when it exists and
`None` is returned. A `None` asset name makes `Path(temp_dir) / filename`
raise an uncaught `TypeError`, modelled by `Except.error`. `preFile` is the
file already present at the destination path, if any. -/
def download_update (info : UpdateInfo) (cb : Bool) (net : NetEvent)
    (preFile : Option (List Nat)) : Except PyErr DownloadOut :=
  match selectedAsset info with
  | none => .ok ⟨none, preFile, []⟩
  | some asset =>
    match asset.browser_download_url with
    | none => .ok ⟨none, preFile, []⟩
    | some _ =>
      match asset.name with
      | none => .error .typeErr
      | some filename =>
        match net with
        | .failConnect => .ok ⟨none, none, []⟩
        | .transfer total chunks interrupted =>
          let (written, _, calls, broke) := dlLoop cb total chunks [] 0 []
          if interrupted && !broke then .ok ⟨none, none, calls⟩
          else .ok ⟨some (pathFor filename), some written, calls⟩

/-- When the modelled run of `download_update` raises inside its `try`:
either `urlopen` itself fails, or a read/write raises after the listed
chunks, which requires that no empty read (EOF) pre-empted it. -/
def netFails : NetEvent → Prop
  | .failConnect => True
  | .transfer _ chunks interrupted => interrupted = true ∧ 0 ∉ chunks

/-- Partial sums of a chunk list starting from `acc`: the successive values
of the `downloaded` counter. -/
def runningTotals (acc : Nat) : List Nat → List Nat
  | [] => []
  | c :: rest => (acc + c) :: runningTotals (acc + c) rest

/-! ## `HeliumUpdater.install_update` -/

/-- Behaviour of the spawned installer process: whether the spawn itself
raises, how long the process runs, and its exit code. -/
structure ProcBehavior where
  spawnFails : Bool
  duration : Nat
  exitCode : Int
  deriving DecidableEq, Repr

/-- Outcome of `subprocess.run([...], timeout=limit)` under `b`. -/
inductive ProcOutcome where
  | exits (code : Int)
  | timeoutExpired
  | raises
  deriving DecidableEq, Repr

/-- `subprocess.run` with a timeout: raises if the spawn fails, raises
`TimeoutExpired` if the process outlives the limit, else yields the code. -/
def subprocessRunStatus (b : ProcBehavior) (limit : Nat) : ProcOutcome :=
  if b.spawnFails then .raises
  else if b.duration > limit then .timeoutExpired
  else .exits b.exitCode

/-- `HeliumUpdater.install_update`: run `.exe` files silently with a
300-unit timeout and report `returncode == 0`; `.zip` and anything else
report `false`; every exception is caught and reported as `false`. -/
def install_update (installer_path : String) (b : ProcBehavior) : Bool :=
  if strEnds installer_path ".exe" then
    match subprocessRunStatus b 300 with
    | .exits code => code == 0
    | .timeoutExpired => false
    | .raises => false
  else if strEnds installer_path ".zip" then false
  else false

/-! ## `HeliumUpdater.cleanup_download` -/

/-- What the OS does when an existing file is unlinked. -/
inductive UnlinkEnv where
  | ok
  | osError
  deriving DecidableEq, Repr

/-- `Path(file_path).unlink()`: raises `FileNotFoundError` when the file is
absent, and may fail with an `OSError` even when it exists. -/
def pyUnlink (file : Option (List Nat)) (env : UnlinkEnv) :
    Except PyErr (Option (List Nat)) :=
  match file with
  | none => .error .fileNotFound
  | some _ =>
    match env with
    | .ok => .ok none
    | .osError => .error .osError

/-- `HeliumUpdater.cleanup_download`: try to unlink, swallow every
exception (`except Exception: pass`); the result is the final file state,
and `Except.ok` everywhere is the never-raises contract. -/
def cleanup_download (file : Option (List Nat)) (env : UnlinkEnv) :
    Except PyErr (Option (List Nat)) :=
  match pyUnlink file env with
  | .ok file' => .ok file'
  | .error _ => .ok file

/-! ## Specification-side definition for claim C8 -/

/-- Modelled from the claim's words, not the code: the tag with one leading
`'v'` stripped if present, otherwise unchanged. -/
def specStripOneLeadingV (t : String) : String :=
  match t.data with
  | 'v' :: rest => ⟨rest⟩
  | _ => t

example : is_newer_version "1.0.0.1" "1.0.0.0" = true := by decide
example : is_newer_version "1.0.0.0" "1.0.0.0" = false := by decide
example : is_newer_version "2.0.0.0" "1.9.9.9" = true := by decide
example : is_newer_version "1.2.0-beta.1" "1.1.9" = true := by decide
example : is_newer_version "1.x.2" "1.0" = false := by decide
example : pyIntChars " +1_0 ".data = some 10 := by decide
example : pyIntChars "1_".data = none := by decide
example : wellFormedVersion "1.2.0-beta.1" = true := by decide
example : specIntSeq "1.2.0-beta.1" = [1, 2, 0] := by decide

/-! ## Concrete fixtures used in the theorems below (mirroring the mocked
release of `src/test_update_system.py`) -/

def mockInst : Asset := ⟨some "helium_1.2.3.4_x64-installer.exe", some "u1"⟩

def mockZip : Asset := ⟨some "helium_1.2.3.4_x64-windows.zip", some "u2"⟩

def mockRel : Release := ⟨some "1.2.3.4", some "notes", some "hurl", some "2025-01-01", [mockInst, mockZip]⟩

/-- The same release with an asset list carrying no `x64` marker. -/
def mockRelArm : Release := ⟨some "1.2.3.4", some "notes", some "hurl", some "2025-01-01",
  [⟨some "helium_1.2.3.4_arm64-installer.exe", some "u1"⟩]⟩

/-- A release whose tag carries a doubled leading `v`. -/
def mockRelVV : Release := ⟨some "vv9.0.0.0", none, none, none,
  [⟨some "helium_9.0.0.0_x64-installer.exe", some "u1"⟩]⟩

/-- A fully populated update record for download scenarios. -/
def mockInfo : UpdateInfo := ⟨"1.2.3.4", "", none, none, some mockInst, some mockZip, "x64"⟩

/-- An update record whose installer asset lacks a download URL while the
zip asset has one. -/
def mockInfoNoUrl : UpdateInfo :=
  ⟨"1.2.3.4", "", none, none, some ⟨some "helium.exe", none⟩, some mockZip, "x64"⟩

example : check_for_updates "1.0.0.0" "AMD64" (some mockRel) =
    some ⟨"1.2.3.4", "notes", some "hurl", some "2025-01-01", some mockInst, some mockZip, "x64"⟩ := by decide

example : check_for_updates "1.0.0.0" "AMD64" (some mockRelArm) = none := by decide

example : download_update mockInfo true (.transfer 10 [4, 6] false) none =
    .ok ⟨some "/tmp/helium_1.2.3.4_x64-installer.exe", some [4, 6], [(4, 10), (10, 10)]⟩ := by decide

example : download_update mockInfo true (.transfer 10 [4] true) (some [9]) =
    .ok ⟨none, none, [(4, 10)]⟩ := by decide

example : install_update "a.exe" ⟨false, 100, 0⟩ = true := by decide

example : install_update "a.exe" ⟨false, 301, 0⟩ = false := by decide

example : install_update "a.zip" ⟨false, 100, 0⟩ = false := by decide

example : cleanup_download none .ok = .ok none := by decide

/-! ## Supporting lemmas -/

/-- Heads agree when a nonempty pattern begins a list. -/
theorem listStartsWith_head (a b : Char) (as bs : List Char)
    (h : listStartsWith (a :: as) (b :: bs) = true) : a = b := by
  simp only [listStartsWith, Bool.and_eq_true, beq_iff_eq] at h
  exact h.1

/-- A path ending in `.zip` does not end in `.exe`. -/
theorem strEnds_zip_not_exe (p : String) (h : strEnds p ".zip" = true) :
    strEnds p ".exe" = false := by
  have hz : (".zip" : String).data.reverse = ['p', 'i', 'z', '.'] := by decide
  have he : (".exe" : String).data.reverse = ['e', 'x', 'e', '.'] := by decide
  unfold strEnds at h ⊢
  rw [hz] at h
  rw [he]
  cases hrev : p.data.reverse with
  | nil => rw [hrev] at h; simp [listStartsWith] at h
  | cons c rest =>
    rw [hrev] at h
    have hc : 'p' = c := listStartsWith_head _ _ _ _ h
    simp only [listStartsWith, Bool.and_eq_false_iff]
    left
    rw [← hc]
    decide

/-! ## Claims -/

/-- C7: architecture resolution is total: every machine string maps to
exactly one of x64/arm64, `amd64`/`x86_64` map to `x64`, `arm64`/`aarch64`
map to `arm64`, and every unrecognized value maps to `x64`. -/
theorem arch_resolution_total :
    (∀ m : String, get_architecture m = "x64" ∨ get_architecture m = "arm64")
    ∧ get_architecture "amd64" = "x64"
    ∧ get_architecture "x86_64" = "x64"
    ∧ get_architecture "arm64" = "arm64"
    ∧ get_architecture "aarch64" = "arm64"
    ∧ (∀ m : String, lowerStr m ≠ "amd64" → lowerStr m ≠ "x86_64" →
        lowerStr m ≠ "arm64" → lowerStr m ≠ "aarch64" → get_architecture m = "x64") := by
  refine ⟨?_, by decide, by decide, by decide, by decide, ?_⟩
  · intro m
    by_cases h1 : (lowerStr m == "amd64" || lowerStr m == "x86_64") = true
    · left
      simp [get_architecture, h1]
    · by_cases h2 : (lowerStr m == "arm64" || lowerStr m == "aarch64") = true
      · right
        simp [get_architecture, h1, h2]
      · left
        simp [get_architecture, h1, h2]
  · intro m h1 h2 h3 h4
    simp [get_architecture, h1, h2, h3, h4]

/-- Witness for C7 at an unrecognized architecture string. -/
theorem arch_resolution_total_witness : get_architecture "riscv64" = "x64" :=
  arch_resolution_total.2.2.2.2.2 "riscv64" (by decide) (by decide) (by decide) (by decide)

/-- C9: cleanup never raises: for every file state and every unlink
behaviour, `cleanup_download` returns normally, in particular on a
nonexistent path. -/
theorem cleanup_never_raises :
    ∀ (file : Option (List Nat)) (env : UnlinkEnv),
      (∃ file', cleanup_download file env = .ok file')
      ∧ (file = none → cleanup_download file env = .ok none) := by
  intro file env
  cases file <;> cases env <;>
    exact ⟨⟨_, rfl⟩, fun h => by simp_all [cleanup_download, pyUnlink]⟩

/-- Witness for C9: deleting a nonexistent path returns normally. -/
theorem cleanup_never_raises_witness :
    cleanup_download none .ok = .ok none ∧ ∃ f', cleanup_download none .osError = .ok f' :=
  ⟨(cleanup_never_raises none .ok).2 rfl, (cleanup_never_raises none .osError).1⟩

/-- Closed form of `install_update` as one boolean expression. -/
theorem install_update_eq (p : String) (b : ProcBehavior) :
    install_update p b =
      (strEnds p ".exe" && !b.spawnFails && decide (b.duration ≤ 300) && (b.exitCode == 0)) := by
  unfold install_update subprocessRunStatus
  by_cases he : strEnds p ".exe" = true
  · by_cases hs : b.spawnFails = true
    · simp [he, hs]
    · by_cases hd : 300 < b.duration
      · simp [he, hs, hd, Nat.not_le.mpr hd]
      · simp [he, hs, hd, Nat.not_lt.mp hd]
  · by_cases hz : strEnds p ".zip" = true
    · simp [he, hz]
    · simp [he, hz]

/-- C6: `install_update` is a total boolean: it reports `true` exactly for
an `.exe` path whose spawned process neither fails to start, nor outlives
the 300-unit ceiling, and exits with status zero; a `.zip` path (or any
other extension) always reports `false`. -/
theorem install_update_boolean :
    ∀ (p : String) (b : ProcBehavior),
      (install_update p b = true ↔
        strEnds p ".exe" = true ∧ b.spawnFails = false ∧ b.duration ≤ 300 ∧ b.exitCode = 0)
      ∧ (strEnds p ".zip" = true → install_update p b = false)
      ∧ (strEnds p ".exe" = false → install_update p b = false) := by
  intro p b
  refine ⟨?_, ?_, ?_⟩
  · rw [install_update_eq]
    simp [Bool.and_eq_true, Bool.not_eq_true', and_assoc]
  · intro hz
    rw [install_update_eq, strEnds_zip_not_exe p hz]
    simp
  · intro he
    rw [install_update_eq, he]
    simp

/-- Witness for C6 at concrete paths and process behaviours. -/
theorem install_update_boolean_witness :
    (install_update "helium.exe" ⟨false, 100, 0⟩ = true
      ↔ strEnds "helium.exe" ".exe" = true ∧ false = false ∧ 100 ≤ 300 ∧ (0 : Int) = 0)
    ∧ install_update "helium.zip" ⟨false, 100, 0⟩ = false
    ∧ install_update "helium.txt" ⟨false, 100, 0⟩ = false :=
  ⟨(install_update_boolean "helium.exe" ⟨false, 100, 0⟩).1,
   (install_update_boolean "helium.zip" ⟨false, 100, 0⟩).2.1 (by decide),
   (install_update_boolean "helium.txt" ⟨false, 100, 0⟩).2.2 (by decide)⟩

/-- C10: a present installer asset without a download URL makes
`download_update` return no result untouched (no transfer, no callback,
file unchanged) even if the zip asset has a URL; the zip asset is selected
only when the installer is absent. -/
theorem download_installer_url_missing :
    (∀ (info : UpdateInfo) (cb : Bool) (net : NetEvent) (preFile : Option (List Nat)) (a : Asset),
        info.installer = some a → a.browser_download_url = none →
        download_update info cb net preFile = .ok ⟨none, preFile, []⟩)
    ∧ (∀ info : UpdateInfo, info.installer = none → selectedAsset info = info.zip_package)
    ∧ (∀ (info : UpdateInfo) (a : Asset), info.installer = some a →
        selectedAsset info = some a) := by
  refine ⟨?_, ?_, ?_⟩
  · intro info cb net preFile a hinst hurl
    have hsel : selectedAsset info = some a := by
      unfold selectedAsset
      rw [hinst]
    simp [download_update, hsel, hurl]
  · intro info h
    simp [selectedAsset, h]
  · intro info a h
    simp [selectedAsset, h]

/-- Witness for C10: with such a record nothing is downloaded. -/
theorem download_installer_url_missing_witness :
    download_update mockInfoNoUrl true (.transfer 10 [4] false) (some [7]) =
      .ok ⟨none, some [7], []⟩ :=
  download_installer_url_missing.1 mockInfoNoUrl true (.transfer 10 [4] false) (some [7])
    ⟨some "helium.exe", none⟩ rfl rfl

/-- The copy loop never reports an EOF break when no chunk is empty. -/
theorem dlLoop_not_broke (cb : Bool) (total : Nat) :
    ∀ (chunks file : List Nat) (downloaded : Nat) (calls : List (Nat × Nat)),
      0 ∉ chunks → (dlLoop cb total chunks file downloaded calls).2.2.2 = false := by
  intro chunks
  induction chunks with
  | nil =>
    intro file downloaded calls _
    rfl
  | cons ch rest ih =>
    intro file downloaded calls h
    have hch : ¬ch = 0 := fun e => h (e ▸ List.mem_cons_self ch rest)
    simp only [dlLoop, if_neg hch]
    exact ih _ _ _ fun hm => h (List.mem_cons_of_mem ch hm)

/-- C4: whenever an exception occurs during the transfer (after an asset
with a download URL was selected), `download_update` returns no result and
no file remains at the destination path. -/
theorem download_failure_cleans_partial :
    ∀ (info : UpdateInfo) (cb : Bool) (net : NetEvent) (preFile : Option (List Nat))
      (a : Asset) (url fn : String),
      selectedAsset info = some a → a.browser_download_url = some url →
      a.name = some fn → netFails net →
      ∃ calls, download_update info cb net preFile = .ok ⟨none, none, calls⟩ := by
  intro info cb net preFile a url fn hsel hurl hname hfail
  cases net with
  | failConnect =>
    exact ⟨[], by simp [download_update, hsel, hurl, hname]⟩
  | transfer total chunks interrupted =>
    obtain ⟨hint, hzero⟩ := hfail
    have hbroke := dlLoop_not_broke cb total chunks [] 0 [] hzero
    rcases hd : dlLoop cb total chunks [] 0 [] with ⟨w, d, cs, br⟩
    rw [hd] at hbroke
    have hbr : br = false := hbroke
    refine ⟨cs, ?_⟩
    simp [download_update, hsel, hurl, hname, hd, hint, hbr]

/-- Witness for C4: a connection failure with a pre-existing file at the
destination leaves no file and returns no result. -/
theorem download_failure_cleans_partial_witness :
    ∃ calls, download_update mockInfo true .failConnect (some [3]) = .ok ⟨none, none, calls⟩ :=
  download_failure_cleans_partial mockInfo true .failConnect (some [3]) mockInst
    "u1" "helium_1.2.3.4_x64-installer.exe" (by decide) (by decide) (by decide) trivial

/-- A failing segment anywhere makes the whole comprehension fail. -/
theorem intListOf_eq_none_of_mem :
    ∀ (l : List (List Char)) (x : List Char),
      x ∈ l → pyIntChars x = none → intListOf l = none := by
  intro l
  induction l with
  | nil =>
    intro x hx
    cases hx
  | cons a rest ih =>
    intro x hx hfx
    rcases List.mem_cons.mp hx with h | h
    · subst h
      cases hb : intListOf rest <;> simp [intListOf, hfx, hb]
    · cases hfa : pyIntChars a <;> simp [intListOf, hfa, ih x h hfx]

/-- C3: if any dot-separated segment of either input (after the pre-release
strip) fails integer parsing, the comparison fails closed to `false`. -/
theorem version_parse_fails_closed :
    ∀ (v1 v2 : String) (seg : List Char),
      (seg ∈ segsOf v1 ∨ seg ∈ segsOf v2) → pyIntChars seg = none →
      is_newer_version v1 v2 = false := by
  intro v1 v2 seg hmem hseg
  have hnone : parse_version v1 = none ∨ parse_version v2 = none := by
    rcases hmem with h | h
    · exact Or.inl (intListOf_eq_none_of_mem (segsOf v1) seg h hseg)
    · exact Or.inr (intListOf_eq_none_of_mem (segsOf v2) seg h hseg)
  unfold is_newer_version
  rcases hnone with h | h
  · cases h2 : parse_version v2 <;> simp [h, h2]
  · cases h1 : parse_version v1 <;> simp [h, h1]

/-- Witness for C3 at a version with a non-numeric segment. -/
theorem version_parse_fails_closed_witness : is_newer_version "1.x.2" "1.0" = false :=
  version_parse_fails_closed "1.x.2" "1.0" ['x'] (Or.inl (by decide)) (by decide)

/-- Basic facts about the running totals of a chunk list. -/
theorem runningTotals_length :
    ∀ (l : List Nat) (acc : Nat), (runningTotals acc l).length = l.length := by
  intro l
  induction l with
  | nil =>
    intro acc
    rfl
  | cons c rest ih =>
    intro acc
    simp [runningTotals, ih]

/-- Every running total is at least the starting accumulator. -/
theorem runningTotals_le :
    ∀ (l : List Nat) (acc x : Nat), x ∈ runningTotals acc l → acc ≤ x := by
  intro l
  induction l with
  | nil =>
    intro acc x hx
    cases hx
  | cons c rest ih =>
    intro acc x hx
    rcases List.mem_cons.mp hx with h | h
    · subst h
      exact Nat.le_add_right acc c
    · exact le_trans (Nat.le_add_right acc c) (ih (acc + c) x h)

/-- Running totals are non-decreasing. -/
theorem runningTotals_chain :
    ∀ (l : List Nat) (acc : Nat), List.Chain' (· ≤ ·) (runningTotals acc l) := by
  intro l
  induction l with
  | nil =>
    intro acc
    simp [runningTotals]
  | cons c rest ih =>
    intro acc
    rw [runningTotals, List.chain'_cons']
    exact ⟨fun b hb => runningTotals_le rest (acc + c) b (List.mem_of_mem_head? hb),
           ih (acc + c)⟩

/-- The last running total of a nonempty chunk list is the full sum. -/
theorem runningTotals_last :
    ∀ (l : List Nat) (acc : Nat), l ≠ [] →
      (runningTotals acc l).getLast? = some (acc + l.sum) := by
  intro l
  induction l with
  | nil =>
    intro acc h
    exact absurd rfl h
  | cons c rest ih =>
    intro acc _
    cases rest with
    | nil => simp [runningTotals]
    | cons r rs =>
      have htail := ih (acc + c) (by simp)
      have hstep : runningTotals acc (c :: r :: rs) =
          (acc + c) :: runningTotals (acc + c) (r :: rs) := rfl
      rcases hr : runningTotals (acc + c) (r :: rs) with _ | ⟨y, ys⟩
      · exact absurd hr (by simp [runningTotals])
      · rw [hstep, hr, List.getLast?_cons_cons]
        rw [hr] at htail
        rw [htail]
        simp [Nat.add_assoc]

/-- Full run of the copy loop on positive chunks with a supplied callback
and a positive declared total: everything is written, and the callback
fires once per chunk with the running totals. -/
theorem dlLoop_run (total : Nat) (ht : 0 < total) :
    ∀ (chunks file : List Nat) (downloaded : Nat) (calls : List (Nat × Nat)),
      (∀ c ∈ chunks, 0 < c) →
      dlLoop true total chunks file downloaded calls =
        (file ++ chunks, downloaded + chunks.sum,
         calls ++ (runningTotals downloaded chunks).map (fun d => (d, total)), false) := by
  intro chunks
  induction chunks with
  | nil =>
    intro file downloaded calls _
    simp [dlLoop, runningTotals]
  | cons c rest ih =>
    intro file downloaded calls hpos
    have hc : ¬c = 0 := Nat.pos_iff_ne_zero.mp (hpos c (List.mem_cons_self c rest))
    simp only [dlLoop, if_neg hc]
    rw [ih _ _ _ fun x hx => hpos x (List.mem_cons_of_mem c hx)]
    simp [runningTotals, ht, List.append_assoc, Nat.add_assoc]

/-- C5: a completed download with declared positive content length `total`
and a supplied callback writes all chunks, invokes the callback once per
chunk with the running byte counts paired with `total`, and those counts
are non-decreasing and culminate at `total`. -/
theorem download_progress_callback :
    ∀ (info : UpdateInfo) (preFile : Option (List Nat)) (a : Asset) (url fn : String)
      (total : Nat) (chunks : List Nat),
      selectedAsset info = some a → a.browser_download_url = some url → a.name = some fn →
      0 < total → chunks.sum = total → (∀ c ∈ chunks, 0 < c) →
      download_update info true (.transfer total chunks false) preFile =
          .ok ⟨some (pathFor fn), some chunks,
               (runningTotals 0 chunks).map (fun d => (d, total))⟩
        ∧ (runningTotals 0 chunks).length = chunks.length
        ∧ List.Chain' (· ≤ ·) (runningTotals 0 chunks)
        ∧ (runningTotals 0 chunks).getLast? = some total := by
  intro info preFile a url fn total chunks hsel hurl hname ht hsum hpos
  have hrun := dlLoop_run total ht chunks [] 0 [] hpos
  refine ⟨?_, runningTotals_length chunks 0, runningTotals_chain chunks 0, ?_⟩
  · simp [download_update, hsel, hurl, hname, hrun]
  · have hne : chunks ≠ [] := by
      intro h
      subst h
      simp at hsum
      omega
    rw [runningTotals_last chunks 0 hne, hsum]
    simp

/-- Witness for C5 on a two-chunk download of 10 declared bytes. -/
theorem download_progress_callback_witness :
    download_update mockInfo true (.transfer 10 [4, 6] false) none =
        .ok ⟨some (pathFor "helium_1.2.3.4_x64-installer.exe"), some [4, 6],
             (runningTotals 0 [4, 6]).map (fun d => (d, 10))⟩
      ∧ (runningTotals 0 [4, 6]).length = ([4, 6] : List Nat).length
      ∧ List.Chain' (· ≤ ·) (runningTotals 0 [4, 6])
      ∧ (runningTotals 0 [4, 6]).getLast? = some 10 :=
  download_progress_callback mockInfo none mockInst "u1" "helium_1.2.3.4_x64-installer.exe"
    10 [4, 6] (by decide) (by decide) (by decide) (by decide) (by decide) (by decide)

/-- An ASCII digit is not stripped as whitespace. -/
theorem digit_not_space (c : Char) (h : c.isDigit = true) : isPySpace c = false := by
  cases hs : isPySpace c
  · rfl
  · exfalso
    simp only [isPySpace, Bool.or_eq_true, beq_iff_eq] at hs
    rcases hs with ((((rfl | rfl) | rfl) | rfl) | rfl) | rfl <;> exact absurd h (by decide)

/-- An ASCII digit is not the plus sign. -/
theorem digit_not_plus (c : Char) (h : c.isDigit = true) : (c == '+') = false := by
  cases hp : c == '+'
  · rfl
  · exact absurd h (eq_of_beq hp ▸ by decide)

/-- An ASCII digit is not the minus sign. -/
theorem digit_not_minus (c : Char) (h : c.isDigit = true) : (c == '-') = false := by
  cases hp : c == '-'
  · rfl
  · exact absurd h (eq_of_beq hp ▸ by decide)

/-- Stripping whitespace from an all-digit list is the identity. -/
theorem pyStrip_digits (cs : List Char) (h : ∀ c ∈ cs, c.isDigit = true) :
    pyStrip cs = cs := by
  have h1 : ∀ l : List Char, (∀ c ∈ l, c.isDigit = true) → l.dropWhile isPySpace = l := by
    intro l hl
    cases l with
    | nil => rfl
    | cons a as =>
      rw [List.dropWhile_cons, digit_not_space a (hl a (List.mem_cons_self a as))]
      simp
  unfold pyStrip
  rw [h1 cs h, h1 cs.reverse fun c hc => h c (List.mem_reverse.mp hc), List.reverse_reverse]

/-- The digit-run parser evaluates an all-digit list to its decimal value. -/
theorem parseDigitsGo_digits :
    ∀ (cs : List Char) (acc : Nat), (∀ c ∈ cs, c.isDigit = true) →
      parseDigitsGo acc cs = some (digitsToNatFrom acc cs) := by
  intro cs
  induction cs with
  | nil =>
    intro acc _
    rfl
  | cons c rest ih =>
    intro acc h
    have hc := h c (List.mem_cons_self c rest)
    have hred : parseDigitsGo acc (c :: rest) = parseDigitsGo (acc * 10 + digitVal c) rest := by
      conv_lhs => unfold parseDigitsGo
      rw [hc]
      exact if_pos rfl
    rw [hred, ih _ fun x hx => h x (List.mem_cons_of_mem c hx)]
    rfl

/-- Same for the nonempty-run entry point. -/
theorem parseDigitsU_digits (cs : List Char) (hne : cs ≠ [])
    (h : ∀ c ∈ cs, c.isDigit = true) :
    parseDigitsU cs = some (digitsToNatFrom 0 cs) := by
  cases cs with
  | nil => exact absurd rfl hne
  | cons c rest =>
    have hc := h c (List.mem_cons_self c rest)
    have hred : parseDigitsU (c :: rest) = parseDigitsGo 0 (c :: rest) := by
      simp [parseDigitsU, hc]
    rw [hred]
    exact parseDigitsGo_digits _ _ h

/-- Python `int` on a nonempty all-digit string is its decimal value. -/
theorem pyIntChars_digits (cs : List Char) (hne : cs ≠ [])
    (h : ∀ c ∈ cs, c.isDigit = true) :
    pyIntChars cs = some ((digitsToNatFrom 0 cs : Nat) : Int) := by
  cases cs with
  | nil => exact absurd rfl hne
  | cons c rest =>
    have hc := h c (List.mem_cons_self c rest)
    have hstrip := pyStrip_digits (c :: rest) h
    have hu := parseDigitsU_digits (c :: rest) (by simp) h
    simp [pyIntChars, hstrip, digit_not_plus c hc, digit_not_minus c hc, hu]

/-- The comprehension on nonempty all-digit segments yields all values. -/
theorem intListOf_digits :
    ∀ l : List (List Char), (∀ s ∈ l, s ≠ [] ∧ ∀ c ∈ s, c.isDigit = true) →
      intListOf l = some (l.map fun s => ((digitsToNatFrom 0 s : Nat) : Int)) := by
  intro l
  induction l with
  | nil =>
    intro _
    rfl
  | cons s rest ih =>
    intro h
    obtain ⟨hne, hdig⟩ := h s (List.mem_cons_self s rest)
    simp [intListOf, pyIntChars_digits s hne hdig,
          ih fun x hx => h x (List.mem_cons_of_mem s hx)]

/-- On a well-formed version string, `parse_version` returns exactly the
specification-side integer sequence. -/
theorem parse_version_wf (v : String) (h : wellFormedVersion v = true) :
    parse_version v = some (specIntSeq v) := by
  unfold parse_version specIntSeq
  apply intListOf_digits
  intro s hs
  have hseg := List.all_eq_true.mp h s hs
  simp only [Bool.and_eq_true, Bool.not_eq_true'] at hseg
  refine ⟨?_, fun c hc => List.all_eq_true.mp hseg.2 c hc⟩
  intro he
  subst he
  simp at hseg

/-- Python list `>` agrees with lexicographic strict order (reversed). -/
theorem pyListGT_iff_lex : ∀ a b : List Int, pyListGT a b = true ↔ List.Lex (· < ·) b a := by
  intro a
  induction a with
  | nil =>
    intro b
    constructor
    · intro h
      simp [pyListGT] at h
    · intro h
      cases h
  | cons x as ih =>
    intro b
    cases b with
    | nil =>
      constructor
      · intro _
        exact List.Lex.nil
      · intro _
        rfl
    | cons y bs =>
      constructor
      · intro h
        simp only [pyListGT] at h
        by_cases h1 : x > y
        · exact List.Lex.rel h1
        · rw [if_neg h1] at h
          by_cases h2 : y > x
          · rw [if_pos h2] at h
            cases h
          · rw [if_neg h2] at h
            have hxy : y = x := le_antisymm (not_lt.mp h2) (not_lt.mp h1)
            subst hxy
            exact List.Lex.cons ((ih bs).mp h)
      · intro h
        cases h with
        | rel hr =>
          simp only [pyListGT]
          rw [if_pos hr]
        | cons ht =>
          simp only [pyListGT]
          rw [if_neg (lt_irrefl x), if_neg (lt_irrefl x)]
          exact (ih bs).mpr ht

/-- C1: on well-formed dot-integer version strings `is_newer_version`
decides exactly the strict lexicographic order of the zero-padded integer
sequences, and the spec's concrete examples hold. -/
theorem version_compare_lexicographic :
    (∀ a b : String, wellFormedVersion a = true → wellFormedVersion b = true →
      (is_newer_version a b = true ↔
        List.Lex (· < ·) (padTo (specIntSeq b) (maxLen a b))
          (padTo (specIntSeq a) (maxLen a b))))
    ∧ is_newer_version "1.0.0.1" "1.0.0.0" = true
    ∧ is_newer_version "1.0.0.0" "1.0.0.0" = false
    ∧ is_newer_version "2.0.0.0" "1.9.9.9" = true
    ∧ is_newer_version "1.2.0-beta.1" "1.1.9" = true := by
  refine ⟨?_, by decide, by decide, by decide, by decide⟩
  intro a b ha hb
  unfold is_newer_version
  rw [parse_version_wf a ha, parse_version_wf b hb]
  exact pyListGT_iff_lex _ _

/-- Witness for C1 applying the order characterization at concrete inputs. -/
theorem version_compare_lexicographic_witness :
    is_newer_version "1.0.0.1" "1.0.0.0" = true ↔
      List.Lex (· < ·) (padTo (specIntSeq "1.0.0.0") (maxLen "1.0.0.1" "1.0.0.0"))
        (padTo (specIntSeq "1.0.0.1") (maxLen "1.0.0.1" "1.0.0.0")) :=
  version_compare_lexicographic.1 "1.0.0.1" "1.0.0.0" (by decide) (by decide)

/-- The installer slot of the scan is filled exactly when some asset so far
classifies as an installer. -/
theorem scanGo_fst (arch : String) :
    ∀ (assets : List Asset) (acc : Option Asset × Option Asset),
      (scanGo arch acc assets).1.isSome =
        (acc.1.isSome || assets.any (isInstallerMatch arch)) := by
  intro assets
  induction assets with
  | nil =>
    intro acc
    simp [scanGo]
  | cons a rest ih =>
    intro acc
    simp only [scanGo, List.any_cons]
    rw [ih (stepAsset arch acc a)]
    unfold stepAsset isInstallerMatch
    by_cases h1 : assetMatchArch arch (lowerStr (a.name.getD "")) = true
    · by_cases h2 : strEnds (lowerStr (a.name.getD "")) "-installer.exe" = true
      · simp [h1, h2]
      · by_cases h3 : strEnds (lowerStr (a.name.getD "")) "-windows.zip" = true
        · simp [h1, h2, h3]
        · simp [h1, h2, h3]
    · simp [h1]

/-- The zip slot of the scan is filled exactly when some asset so far
classifies as a zip package. -/
theorem scanGo_snd (arch : String) :
    ∀ (assets : List Asset) (acc : Option Asset × Option Asset),
      (scanGo arch acc assets).2.isSome =
        (acc.2.isSome || assets.any (isZipMatch arch)) := by
  intro assets
  induction assets with
  | nil =>
    intro acc
    simp [scanGo]
  | cons a rest ih =>
    intro acc
    simp only [scanGo, List.any_cons]
    rw [ih (stepAsset arch acc a)]
    unfold stepAsset isZipMatch
    by_cases h1 : assetMatchArch arch (lowerStr (a.name.getD "")) = true
    · by_cases h2 : strEnds (lowerStr (a.name.getD "")) "-installer.exe" = true
      · simp [h1, h2]
      · by_cases h3 : strEnds (lowerStr (a.name.getD "")) "-windows.zip" = true
        · simp [h1, h2, h3]
        · simp [h1, h2, h3]
    · simp [h1]

/-- Disjunction distributes over `any`. -/
theorem any_or_distrib (l : List Asset) (p q : Asset → Bool) :
    (l.any p || l.any q) = l.any fun x => p x || q x := by
  induction l with
  | nil => rfl
  | cons a rest ih =>
    simp only [List.any_cons, ← ih]
    cases p a <;> cases q a <;> cases rest.any p <;> cases rest.any q <;> rfl

/-- Installer-or-zip classification is marker plus either suffix. -/
theorem instOrZip (arch : String) (a : Asset) :
    (isInstallerMatch arch a || isZipMatch arch a) =
      (assetMatchArch arch (lowerStr (a.name.getD "")) &&
        (strEnds (lowerStr (a.name.getD "")) "-installer.exe" ||
         strEnds (lowerStr (a.name.getD "")) "-windows.zip")) := by
  unfold isInstallerMatch isZipMatch
  cases hm : assetMatchArch arch (lowerStr (a.name.getD "")) <;>
    cases he : strEnds (lowerStr (a.name.getD "")) "-installer.exe" <;>
      cases hz : strEnds (lowerStr (a.name.getD "")) "-windows.zip" <;> simp [hm, he, hz]

/-- The empty candidate version is never newer. -/
theorem is_newer_version_empty (cur : String) : is_newer_version "" cur = false := by
  have hp : parse_version "" = none := rfl
  unfold is_newer_version
  cases h2 : parse_version cur <;> simp [hp, h2]

/-- C2: with a fetched release whose (v-stripped) tag is newer than the
current version, `check_for_updates` yields a result exactly when some
asset name carries the architecture marker and one of the two recognized
suffixes; and the mocked x64 release is fully detected while an
arm64-only asset list yields nothing. -/
theorem check_for_updates_asset_selection :
    (∀ (cur machine : String) (rel : Release),
        is_newer_version (pyLstripV (rel.tag_name.getD "")) cur = true →
        ((check_for_updates cur machine (some rel)).isSome = true ↔
          ∃ a ∈ rel.assets,
            assetMatchArch (get_architecture machine) (lowerStr (a.name.getD "")) = true ∧
            (strEnds (lowerStr (a.name.getD "")) "-installer.exe" = true ∨
             strEnds (lowerStr (a.name.getD "")) "-windows.zip" = true)))
    ∧ check_for_updates "1.0.0.0" "AMD64" (some mockRel) =
        some ⟨"1.2.3.4", "notes", some "hurl", some "2025-01-01",
              some mockInst, some mockZip, "x64"⟩
    ∧ check_for_updates "1.0.0.0" "AMD64" (some mockRelArm) = none := by
  refine ⟨?_, by decide, by decide⟩
  intro cur machine rel hnew
  have hne : (pyLstripV (rel.tag_name.getD "") == "") = false := by
    cases hq : pyLstripV (rel.tag_name.getD "") == ""
    · rfl
    · rw [eq_of_beq hq, is_newer_version_empty cur] at hnew
      cases hnew
  have hiso : (check_for_updates cur machine (some rel)).isSome =
      ((scanGo (get_architecture machine) (none, none) rel.assets).1.isSome
        || (scanGo (get_architecture machine) (none, none) rel.assets).2.isSome) := by
    simp only [check_for_updates, hne, hnew, Bool.false_eq_true, if_false, if_true]
    cases hcond : (scanGo (get_architecture machine) (none, none) rel.assets).1.isSome
        || (scanGo (get_architecture machine) (none, none) rel.assets).2.isSome <;>
      simp [hcond]
  rw [hiso, scanGo_fst, scanGo_snd]
  simp only [Option.isSome_none, Bool.false_or]
  rw [any_or_distrib]
  simp only [instOrZip]
  simp [List.any_eq_true, Bool.and_eq_true, Bool.or_eq_true]

/-- Witness for C2 applying the selection criterion to the mocked release. -/
theorem check_for_updates_asset_selection_witness :
    (check_for_updates "1.0.0.0" "AMD64" (some mockRel)).isSome = true ↔
      ∃ a ∈ mockRel.assets,
        assetMatchArch (get_architecture "AMD64") (lowerStr (a.name.getD "")) = true ∧
        (strEnds (lowerStr (a.name.getD "")) "-installer.exe" = true ∨
         strEnds (lowerStr (a.name.getD "")) "-windows.zip" = true) :=
  check_for_updates_asset_selection.1 "1.0.0.0" "AMD64" mockRel (by decide)

/-- C8 counterexample: on the tag `vv9.0.0.0` the candidate version used by
`check_for_updates` is `9.0.0.0` (every leading `v` removed), not the
`v9.0.0.0` that stripping a single leading `v` would give, so the claim as
stated fails on this release. -/
theorem tag_strip_counterexample :
    (check_for_updates "1.0.0.0" "amd64" (some mockRelVV)).map (fun r => r.version) =
        some "9.0.0.0"
    ∧ pyLstripV (mockRelVV.tag_name.getD "") = "9.0.0.0"
    ∧ specStripOneLeadingV (mockRelVV.tag_name.getD "") = "v9.0.0.0"
    ∧ ("9.0.0.0" : String) ≠ "v9.0.0.0" := by
  refine ⟨by decide, by decide, by decide, by decide⟩

/-- C8 amended: the candidate version used by `check_for_updates` equals
the tag with all leading `v` characters stripped (Python `lstrip('v')`),
and an empty stripped candidate yields no update. -/
theorem tag_strip_amended :
    (∀ (cur machine : String) (rel : Release) (r : UpdateInfo),
        check_for_updates cur machine (some rel) = some r →
        r.version = pyLstripV (rel.tag_name.getD ""))
    ∧ (∀ (cur machine : String) (rel : Release),
        pyLstripV (rel.tag_name.getD "") = "" →
        check_for_updates cur machine (some rel) = none) := by
  constructor
  · intro cur machine rel r hr
    simp only [check_for_updates] at hr
    by_cases h1 : (pyLstripV (rel.tag_name.getD "") == "") = true
    · rw [if_pos h1] at hr
      cases hr
    · rw [if_neg h1] at hr
      by_cases h2 : is_newer_version (pyLstripV (rel.tag_name.getD "")) cur = true
      · rw [if_pos h2] at hr
        by_cases h3 : ((scanGo (get_architecture machine) (none, none) rel.assets).1.isSome
            || (scanGo (get_architecture machine) (none, none) rel.assets).2.isSome) = true
        · rw [if_pos h3] at hr
          injection hr with hr'
          rw [← hr']
        · rw [if_neg h3] at hr
          cases hr
      · rw [if_neg h2] at hr
        cases hr
  · intro cur machine rel hempty
    have hbeq : (pyLstripV (rel.tag_name.getD "") == "") = true := beq_iff_eq.mpr hempty
    simp [check_for_updates, hbeq]

/-- Witness for C8's amended statement on a tag of only `v` characters. -/
theorem tag_strip_amended_witness :
    check_for_updates "1.0.0.0" "amd64" (some ⟨some "vvv", none, none, none, []⟩) = none :=
  tag_strip_amended.2 "1.0.0.0" "amd64" ⟨some "vvv", none, none, none, []⟩ (by decide)
